import Mathlib

/-!
Verification of the BackTestQ worker and API against its specification.

The embedding models `src/worker/trading_worker/worker.py` and the
per-symbol metrics endpoint of
`src/backend/api/src/trading_api/app/main.py` shallowly:

* money amounts (paise) are `Int`, quantities `Int`, dates `Nat`
  (ISO `YYYY-MM-DD` strings compare lexicographically, which coincides
  with chronological order, so a `Nat` day index is order-faithful);
* Python floats are modelled as real numbers (`ℝ`) or rationals (`ℚ`)
  where no square root occurs;
* the SQL tables are lists of row records, SQL `UPDATE`/`DELETE` are
  list maps/filters over the `run_id` key;
* fallible code returns `Except`.
-/

namespace BackTestQ

/-! ### Market data and the replay loop of `run_backtest` -/

/-- One daily OHLCV bar, mirroring the frozen dataclass `Bar` in
`worker.py` (`d` is the ISO date, modelled as a day index). -/
structure Bar where
  d : Nat
  symbol : String
  open_paise : Int
  high_paise : Int
  low_paise : Int
  close_paise : Int
  volume : Int
  deriving DecidableEq, Repr

/-- Observable calls the replay loop of `run_backtest` makes, in order:
engine bar ingestion, fill processing, the strategy hook, and
end-of-day accounting. -/
inductive EngineEvent where
  | engOnBar (b : Bar)
  | processFills (d : Nat)
  | stratOnBar (b : Bar)
  | endOfDay (d : Nat)
  deriving DecidableEq, Repr

/-- Lookup of `by_date[d]`: the Python dict maps a date to its list of bars;
the dict is modelled as an association list with distinct keys. -/
def barsOf (byDate : List (Nat × List Bar)) (d : Nat) : List Bar :=
  (byDate.lookup d).getD []

/-- The body of `for d in sorted(by_date.keys())` in `run_backtest`
(worker.py lines 351-374): for each date, feed every bar to the engine,
process fills, run the strategy hook on every bar, close the day. -/
def replayDates (byDate : List (Nat × List Bar)) : List Nat → List EngineEvent
  | [] => []
  | d :: ds =>
      (barsOf byDate d).map EngineEvent.engOnBar
        ++ EngineEvent.processFills d
        :: ((barsOf byDate d).map EngineEvent.stratOnBar
            ++ EngineEvent.endOfDay d
            :: replayDates byDate ds)

/-- Model of `sorted(by_date.keys())`. -/
def sortedDates (byDate : List (Nat × List Bar)) : List Nat :=
  (byDate.map Prod.fst).insertionSort (· ≤ ·)

/-- The full event trace of the replay loop of `run_backtest`. -/
def replayTrace (byDate : List (Nat × List Bar)) : List EngineEvent :=
  replayDates byDate (sortedDates byDate)

/-- The per-day block of engine calls in the order the spec mandates:
`on_bar(*) → process_fills_for_date → strategy on_bar(*) → end_of_day`. -/
def specDayBlock (byDate : List (Nat × List Bar)) (d : Nat) : List EngineEvent :=
  (barsOf byDate d).map EngineEvent.engOnBar
    ++ [EngineEvent.processFills d]
    ++ (barsOf byDate d).map EngineEvent.stratOnBar
    ++ [EngineEvent.endOfDay d]

/-! ### Per-symbol FIFO metrics of `get_run_symbol_metrics` (main.py) -/

/-- One fill as read back from `run_fills` by the API endpoint. -/
structure ApiFill where
  date : Nat
  side : String
  qty : Int
  price : Int
  fee : Int
  deriving DecidableEq, Repr

/-- The `while remaining > 0 and buy_queue:` loop of
`get_run_symbol_metrics`.  Returns `(trade_pnl_total, buy_queue, remaining)`
after the loop.  When the head lot is only partially consumed
(`lot_qty != 0` after the take), `take = remaining`, so the loop exits
with `remaining = 0`; the function returns directly in that case. -/
def sellConsume (price : Int) : Int → List (Int × Int) → Int × List (Int × Int) × Int
  | remaining, [] => (0, [], remaining)
  | remaining, (lotQty, lotPrice) :: rest =>
      if remaining ≤ 0 then (0, (lotQty, lotPrice) :: rest, remaining)
      else
        let take := min remaining lotQty
        let pnl := (price - lotPrice) * take
        if lotQty - take = 0 then
          let r := sellConsume price (remaining - take) rest
          (pnl + r.1, r.2.1, r.2.2)
        else (pnl, (lotQty - take, lotPrice) :: rest, remaining - take)

/-- Accumulator of the per-ticker loop of `get_run_symbol_metrics`. -/
structure SymbolAcc where
  buy_queue : List (Int × Int)
  realized_pnl : Int
  trades_closed : Nat
  wins : Nat
  trade_count : Nat
  deriving DecidableEq, Repr

/-- One iteration of `for f in flist:` in `get_run_symbol_metrics`:
a BUY pushes a lot, a SELL consumes lots FIFO and unconditionally
counts one closed trade (a win when its aggregate pnl is positive). -/
def applyFill (acc : SymbolAcc) (f : ApiFill) : SymbolAcc :=
  if f.side = "BUY" then
    { acc with buy_queue := acc.buy_queue ++ [(f.qty, f.price)] }
  else if f.side = "SELL" then
    let r := sellConsume f.price f.qty acc.buy_queue
    { buy_queue := r.2.1
      realized_pnl := acc.realized_pnl + r.1
      trades_closed := acc.trades_closed + 1
      wins := acc.wins + (if 0 < r.1 then 1 else 0)
      trade_count := acc.trade_count + 1 }
  else acc

/-- Initial accumulator (empty deque, all counters 0). -/
def initAcc : SymbolAcc := ⟨[], 0, 0, 0, 0⟩

/-- The per-ticker replay of `get_run_symbol_metrics`. -/
def symbolMetrics (fills : List ApiFill) : SymbolAcc :=
  fills.foldl applyFill initAcc

/-- Model of `win_rate=(float(wins) / trades_closed) if trades_closed > 0 else 0.0`. -/
def win_rate (acc : SymbolAcc) : ℚ :=
  if 0 < acc.trades_closed then (acc.wins : ℚ) / acc.trades_closed else 0

/-- Total quantity held in the FIFO buy queue. -/
def queueQty (q : List (Int × Int)) : Int := (q.map Prod.fst).sum

/-- Instrumented replay: the `(trade_pnl_total, quantity actually taken
from lots)` of each SELL, in order. -/
def sellTrades (q : List (Int × Int)) : List ApiFill → List (Int × Int)
  | [] => []
  | f :: rest =>
      if f.side = "BUY" then sellTrades (q ++ [(f.qty, f.price)]) rest
      else if f.side = "SELL" then
        let r := sellConsume f.price f.qty q
        (r.1, f.qty - r.2.2) :: sellTrades r.2.1 rest
      else sellTrades q rest

/-- The long-only feasibility invariant the simulation engine guarantees
for a run's persisted fills (spec §4.3: a SELL is only filled when the
position covers it, and every filled quantity is positive): starting
from queue `q`, every BUY has positive quantity and every SELL has
positive quantity not exceeding the queued position. -/
def feasibleFrom (q : List (Int × Int)) : List ApiFill → Bool
  | [] => true
  | f :: rest =>
      if f.side = "BUY" then
        decide (0 < f.qty) && feasibleFrom (q ++ [(f.qty, f.price)]) rest
      else if f.side = "SELL" then
        decide (0 < f.qty) && decide (f.qty ≤ queueQty q)
          && feasibleFrom (sellConsume f.price f.qty q).2.1 rest
      else feasibleFrom q rest

/-! ### Metrics fallbacks of `write_results` (worker.py) -/

/-- The daily-returns loop of `compute_sharpe_from_equity`:
`rets.append(vals[i]/prev - 1)` for `i ≥ 1`, skipping `prev == 0`. -/
def dailyReturns : List ℚ → List ℚ
  | a :: b :: rest =>
      if a = 0 then dailyReturns (b :: rest)
      else (b / a - 1) :: dailyReturns (b :: rest)
  | _ => []

/-- Model of `rets`: the daily returns of an equity curve, after the float
conversion `vals = [float(v) for (_d, v) in e_curve]`. -/
def retsOf (e_curve : List (Nat × Int)) : List ℚ :=
  dailyReturns (e_curve.map fun p => (p.2 : ℚ))

/-- Model of `mean = sum(rets) / len(rets)`. -/
def meanOf (rets : List ℚ) : ℚ := rets.sum / rets.length

/-- Model of `variance = sum((r - mean) ** 2 for r in rets) / (len(rets) - 1)`
(the sample variance; in ℚ the division yields 0 when the denominator
is 0, i.e. for a single return). -/
def sampleVar (rets : List ℚ) : ℚ :=
  (rets.map fun r => (r - meanOf rets) ^ 2).sum / ((rets.length : ℚ) - 1)

/-- The code's `sd`: `math.sqrt(variance)` when `len(rets) > 1`, else
the hard-coded `0.0`. -/
noncomputable def sdOf (rets : List ℚ) : ℝ :=
  if 1 < rets.length then Real.sqrt (sampleVar rets) else 0

/-- The sample standard deviation as the spec uses it:
`√(Σ (r − mean)² / (n − 1))`. -/
noncomputable def stdevSample (rets : List ℚ) : ℝ := Real.sqrt (sampleVar rets)

/-- Model of `compute_sharpe_from_equity` (worker.py lines 441-465), floats
modelled as reals.  The equity curve is a list of `(date, equity_paise)`
pairs. -/
noncomputable def compute_sharpe_from_equity (e_curve : List (Nat × Int)) : ℝ :=
  if e_curve.length < 2 then 0
  else if retsOf e_curve = [] then 0
  else if sdOf (retsOf e_curve) = 0 then 0
  else (meanOf (retsOf e_curve) : ℝ) / sdOf (retsOf e_curve) * Real.sqrt 252

/-- The Sharpe fallback as the spec words it: 0 for fewer than 2 equity
points; daily returns skip a zero previous equity; 0 when there are no
returns or the sample standard deviation is 0; otherwise
`mean(r) / stdev_sample(r) × √252`. -/
noncomputable def sharpeSpec (e_curve : List (Nat × Int)) : ℝ :=
  if e_curve.length < 2 then 0
  else if retsOf e_curve = [] ∨ stdevSample (retsOf e_curve) = 0 then 0
  else (meanOf (retsOf e_curve) : ℝ) / stdevSample (retsOf e_curve) * Real.sqrt 252

/-- The `for v in vals:` loop of `compute_max_drawdown_pct`
(peak update, drawdown ratio guarded by `peak > 0`, running maximum). -/
def maxDrawdownLoop (peak maxDd : ℚ) : List ℚ → ℚ
  | [] => maxDd
  | v :: rest =>
      let peak2 := if peak < v then v else peak
      let dd := if 0 < peak2 then (peak2 - v) / peak2 else 0
      maxDrawdownLoop peak2 (if maxDd < dd then dd else maxDd) rest

/-- Model of `compute_max_drawdown_pct` (worker.py lines 478-490): peak starts at
`vals[0]`, the loop runs over all values, the result is `max_dd * 100`. -/
def compute_max_drawdown_pct (e_curve : List (Nat × Int)) : ℚ :=
  match e_curve.map (fun p => (p.2 : ℚ)) with
  | [] => 0
  | v :: vs => maxDrawdownLoop v 0 (v :: vs) * 100

/-- Drawdown ratio of each equity value against the running peak
(largest value seen so far, seeded with the first value), taken as 0
whenever the running peak is not positive. -/
def ddSeries (peak : ℚ) : List ℚ → List ℚ
  | [] => []
  | v :: rest =>
      let peak2 := max peak v
      (if 0 < peak2 then (peak2 - v) / peak2 else 0) :: ddSeries peak2 rest

/-- Maximum drawdown percentage as the spec words it: `100 ×` the
maximum over the series of `(running_peak − equity)/running_peak`, the
ratio taken as 0 whenever the running peak is not `> 0`, and 0 for an
empty curve. -/
def maxDrawdownPctSpec (e_curve : List (Nat × Int)) : ℚ :=
  match e_curve.map (fun p => (p.2 : ℚ)) with
  | [] => 0
  | v :: vs => 100 * (ddSeries v (v :: vs)).foldr max 0

/-! ### Strategy compilation (`compile_strategy`, worker.py 279-291) -/

/-- An abstract Python value bound in the executed strategy module; all
the code inspects is whether it is callable. -/
structure PyObj where
  callable : Bool
  deriving DecidableEq, Repr

/-- The global namespace after `exec(code, g, g)`: the bindings of
`init` and `on_bar`, when the module defines them. -/
structure ModuleEnv where
  init : Option PyObj
  on_bar : Option PyObj
  deriving DecidableEq, Repr

/-- Model of `compile_strategy`: executing the module body may raise (the
`Except.error` input); then `on_bar` must be defined and callable, and
`init`, if defined, must be callable; on success the pair
`(init_fn, on_bar_fn)` is returned. -/
def compile_strategy (body : Except String ModuleEnv) :
    Except String (Option PyObj × PyObj) :=
  match body with
  | .error e => .error e
  | .ok g =>
      match g.on_bar with
      | none => .error "strategy must define on_bar(ctx, bar)"
      | some ob =>
          if ob.callable = false then .error "strategy must define on_bar(ctx, bar)"
          else
            match g.init with
            | some i =>
                if i.callable = false then .error "init must be a function if defined"
                else .ok (some i, ob)
            | none => .ok (none, ob)

/-- The failure condition the claim states for `compile_strategy`:
the module body raises, or the module does not define a callable
`on_bar`. -/
def claimedFailCond (body : Except String ModuleEnv) : Bool :=
  match body with
  | .error _ => true
  | .ok g =>
      match g.on_bar with
      | none => true
      | some ob => !ob.callable

/-- The actual success condition of `compile_strategy`: the body
executes, `on_bar` is defined and callable, and `init` is callable
whenever it is defined. -/
def compileSucceeds (body : Except String ModuleEnv) : Bool :=
  match body with
  | .error _ => false
  | .ok g =>
      (match g.on_bar with | some ob => ob.callable | none => false)
        && (match g.init with | some i => i.callable | none => true)

/-! ### Run lifecycle (`mark_running`, `mark_failed`, `mark_completed`) -/

/-- Run status values of the `runs` table. -/
inductive RunStatus where
  | QUEUED
  | RUNNING
  | COMPLETED
  | FAILED
  deriving DecidableEq, Repr

/-- One row of the `runs` table (columns per the schema comment at the
top of worker.py). -/
structure RunRow where
  id : String
  strategy_id : Option String
  status : RunStatus
  config_json : String
  created_at : Nat
  started_at : Option Nat
  finished_at : Option Nat
  error : Option String
  deriving DecidableEq, Repr

/-- Model of `err[:10000]`: Python slices a string by characters. -/
def truncate_err (s : String) : String := ⟨s.data.take 10000⟩

/-- The `SET` clause of `mark_running` applied to one row. -/
def markRunningRow (now : Nat) (r : RunRow) : RunRow :=
  { r with status := RunStatus.RUNNING, started_at := some now, error := none }

/-- Model of `mark_running`: `UPDATE runs SET status='RUNNING', started_at=now(),
error=NULL WHERE id = :id`. -/
def mark_running (now : Nat) (run_id : String) (runs : List RunRow) : List RunRow :=
  runs.map fun r => if r.id = run_id then markRunningRow now r else r

/-- The `SET` clause of `mark_failed` applied to one row. -/
def markFailedRow (now : Nat) (err : String) (r : RunRow) : RunRow :=
  { r with
    status := RunStatus.FAILED
    finished_at := some now
    error := some (truncate_err err) }

/-- Model of `mark_failed`: `UPDATE runs SET status='FAILED', finished_at=now(),
error=:err WHERE id = :id` with `err[:10000]`. -/
def mark_failed (now : Nat) (run_id : String) (err : String)
    (runs : List RunRow) : List RunRow :=
  runs.map fun r => if r.id = run_id then markFailedRow now err r else r

/-- The `SET` clause of `mark_completed` applied to one row. -/
def markCompletedRow (now : Nat) (r : RunRow) : RunRow :=
  { r with status := RunStatus.COMPLETED, finished_at := some now }

/-- Model of `mark_completed`: `UPDATE runs SET status='COMPLETED',
finished_at=now() WHERE id = :id`. -/
def mark_completed (now : Nat) (run_id : String) (runs : List RunRow) : List RunRow :=
  runs.map fun r => if r.id = run_id then markCompletedRow now r else r

/-! ### Result persistence (`clear_previous_results`, `write_results`) -/

/-- One engine fill tuple
`(date, symbol, side, qty, price, fee, order_id)`. -/
structure EngineFill where
  d : Nat
  symbol : String
  side : String
  qty : Int
  price : Int
  fee : Int
  order_id : Int
  deriving DecidableEq, Repr

/-- The attributes `write_results` reads off the engine metrics object
(`getattr` defaults already folded in; `sharpe` and `max_drawdown_pct`
are `none` when the attribute is missing, matching the explicit `None`
handling in the code). -/
structure EngineMetrics where
  sharpe : Option ℝ
  max_drawdown_paise : Int
  max_drawdown_pct : Option ℝ
  win_rate : ℝ
  trades_closed : Int
  realized_pnl_paise : Int
  fees_paise : Int
  annual_return_pct : ℝ
  volatility : ℝ

/-- A `run_equity` row. -/
structure EquityRow where
  run_id : String
  date : Nat
  equity_paise : Int
  deriving DecidableEq, Repr

/-- A `run_fills` row. -/
structure FillRow where
  run_id : String
  date : Nat
  symbol_id : String
  side : String
  qty : Int
  price_paise : Int
  fee_paise : Int
  order_id : Int
  deriving DecidableEq, Repr

/-- A `run_metrics` row. -/
structure MetricsRow where
  run_id : String
  sharpe : ℝ
  max_drawdown_paise : Int
  max_drawdown_pct : ℝ
  win_rate : ℝ
  trades_closed : Int
  realized_pnl_paise : Int
  fees_paise : Int
  annual_return_pct : ℝ
  volatility : ℝ

/-- The three derivative tables `write_results` touches. -/
structure ResultsDB where
  run_equity : List EquityRow
  run_fills : List FillRow
  run_metrics : List MetricsRow

/-- Model of `clear_previous_results`: `DELETE FROM run_equity/run_fills/
run_metrics WHERE run_id = :id`. -/
def clear_previous_results (run_id : String) (db : ResultsDB) : ResultsDB :=
  { run_equity := db.run_equity.filter fun r => ¬ (r.run_id = run_id)
    run_fills := db.run_fills.filter fun r => ¬ (r.run_id = run_id)
    run_metrics := db.run_metrics.filter fun r => ¬ (r.run_id = run_id) }

/-- The `run_equity` rows inserted by `write_results`. -/
def equityRows (run_id : String) (curve : List (Nat × Int)) : List EquityRow :=
  curve.map fun p => ⟨run_id, p.1, p.2⟩

/-- The `run_fills` rows inserted by `write_results`: each fill's ticker
is resolved through `symbol_id_by_ticker.get`, and the fill is skipped
(`continue`) when the lookup is falsy (missing or empty). -/
def fillRows (run_id : String) (symMap : List (String × String)) :
    List EngineFill → List FillRow
  | [] => []
  | f :: rest =>
      match symMap.lookup f.symbol with
      | none => fillRows run_id symMap rest
      | some sid =>
          if sid = "" then fillRows run_id symMap rest
          else ⟨run_id, f.d, sid, f.side, f.qty, f.price, f.fee, f.order_id⟩
            :: fillRows run_id symMap rest

/-- Model of `sharpe_to_store = engine_sharpe if (engine_sharpe is not None and
engine_sharpe != 0.0) else computed_sharpe`. -/
noncomputable def sharpe_to_store (engineSharpe : Option ℝ)
    (curve : List (Nat × Int)) : ℝ :=
  match engineSharpe with
  | some s => if s ≠ 0 then s else compute_sharpe_from_equity curve
  | none => compute_sharpe_from_equity curve

/-- Model of `max_drawdown_pct_to_store`, analogous to `sharpe_to_store`. -/
noncomputable def max_drawdown_pct_to_store (engineMdd : Option ℝ)
    (curve : List (Nat × Int)) : ℝ :=
  match engineMdd with
  | some m => if m ≠ 0 then m else ((compute_max_drawdown_pct curve : ℚ) : ℝ)
  | none => ((compute_max_drawdown_pct curve : ℚ) : ℝ)

/-- The single `run_metrics` row inserted by `write_results`. -/
noncomputable def metricsRow (run_id : String) (metrics : EngineMetrics)
    (curve : List (Nat × Int)) : MetricsRow :=
  { run_id := run_id
    sharpe := sharpe_to_store metrics.sharpe curve
    max_drawdown_paise := metrics.max_drawdown_paise
    max_drawdown_pct := max_drawdown_pct_to_store metrics.max_drawdown_pct curve
    win_rate := metrics.win_rate
    trades_closed := metrics.trades_closed
    realized_pnl_paise := metrics.realized_pnl_paise
    fees_paise := metrics.fees_paise
    annual_return_pct := metrics.annual_return_pct
    volatility := metrics.volatility }

/-- Model of `write_results` (worker.py 393-522): clear the run's previous
derivative rows, then insert the equity points, the resolvable fills,
and exactly one metrics row. -/
noncomputable def write_results (run_id : String) (curve : List (Nat × Int))
    (fills : List EngineFill) (metrics : EngineMetrics)
    (symMap : List (String × String)) (db : ResultsDB) : ResultsDB :=
  let db0 := clear_previous_results run_id db
  { run_equity := db0.run_equity ++ equityRows run_id curve
    run_fills := db0.run_fills ++ fillRows run_id symMap fills
    run_metrics := db0.run_metrics ++ [metricsRow run_id metrics curve] }

/-! ### `run_backtest` phases and the worker loop (`run_once`, `main`) -/

/-- The steps `run_backtest` performs, in program order. -/
inductive WorkStep where
  | importEngine
  | resolveSymbols
  | loadBars
  | constructEngine
  | compileStrategyStep
  | replay
  deriving DecidableEq, Repr

/-- The failure kinds `run_backtest` can raise. -/
inductive BacktestError where
  | engineUnavailable
  | noSymbols
  | noBarsFound (tickers : List String)
  | strategyInvalid (msg : String)
  deriving DecidableEq, Repr

/-- Model of `run_backtest` (worker.py 298-380) as a staged computation: import
the engine module, resolve tickers, load bars (raising the
`NoBarsFound` error when the result is empty), construct the engine,
compile the strategy, replay.  The first component records the steps
actually performed before returning. -/
def run_backtest (engineOk : Bool) (tickers : List String)
    (byDate : List (Nat × List Bar)) (stratBody : Except String ModuleEnv) :
    List WorkStep × Except BacktestError (List EngineEvent) :=
  if engineOk = false then
    ([WorkStep.importEngine], Except.error BacktestError.engineUnavailable)
  else if tickers = [] then
    ([WorkStep.importEngine, WorkStep.resolveSymbols],
     Except.error BacktestError.noSymbols)
  else if byDate = [] then
    ([WorkStep.importEngine, WorkStep.resolveSymbols, WorkStep.loadBars],
     Except.error (BacktestError.noBarsFound tickers))
  else
    match compile_strategy stratBody with
    | .error m =>
        ([WorkStep.importEngine, WorkStep.resolveSymbols, WorkStep.loadBars,
          WorkStep.constructEngine, WorkStep.compileStrategyStep],
         Except.error (BacktestError.strategyInvalid m))
    | .ok _ =>
        ([WorkStep.importEngine, WorkStep.resolveSymbols, WorkStep.loadBars,
          WorkStep.constructEngine, WorkStep.compileStrategyStep, WorkStep.replay],
         Except.ok (replayTrace byDate))

/-- The whole persistent state `run_once` touches. -/
structure WorkerDB where
  runs : List RunRow
  results : ResultsDB

/-- Outcome of transaction 2 of `run_once` (backtest + persistence):
either the values handed to `write_results`, or the exception text. -/
inductive ExecOutcome where
  | ok (curve : List (Nat × Int)) (fills : List EngineFill)
      (metrics : EngineMetrics) (symMap : List (String × String))
  | error (e : String)

/-- Model of `run_once` (worker.py 542-593) after a successful claim of
`run_id`: transaction 1 commits `mark_running`; transaction 2 either
persists the results and commits `mark_completed` (returning `True`),
or — when any step raises — is rolled back, after which `mark_failed`
is committed and `False` is returned. -/
noncomputable def run_once (run_id : String) (now : Nat)
    (outcome : ExecOutcome) (db : WorkerDB) : Bool × WorkerDB :=
  let db1 : WorkerDB := { db with runs := mark_running now run_id db.runs }
  match outcome with
  | ExecOutcome.ok curve fills metrics symMap =>
      (true,
       { runs := mark_completed now run_id db1.runs
         results := write_results run_id curve fills metrics symMap db1.results })
  | ExecOutcome.error e =>
      (false,
       { runs := mark_failed now run_id e db1.runs
         results := db1.results })

/-- The worker `main` loop over a queue of claimable runs: every run is
processed by `run_once`, whatever the previous run returned. -/
noncomputable def worker_loop (now : Nat) :
    List (String × ExecOutcome) → WorkerDB → WorkerDB × List Bool
  | [], db => (db, [])
  | (rid, oc) :: rest, db =>
      let r := run_once rid now oc db
      let w := worker_loop now rest r.2
      (w.1, r.1 :: w.2)

/-- A concrete fill sequence used by witnesses: buy 10, sell 5 at a
gain, sell 5 at a loss. -/
def sampleFills : List ApiFill :=
  [⟨1, "BUY", 10, 100, 1⟩, ⟨2, "SELL", 5, 110, 1⟩, ⟨3, "SELL", 5, 90, 1⟩]

/-- A concrete two-day, two-symbol bar map used by witnesses. -/
def sampleByDate : List (Nat × List Bar) :=
  [(2, [⟨2, "INFY", 11, 13, 10, 12, 6⟩]),
   (1, [⟨1, "INFY", 10, 12, 9, 11, 5⟩, ⟨1, "RELIANCE", 20, 22, 19, 21, 7⟩])]

/-! ## Theorems -/

theorem replayDates_eq_flatMap (byDate : List (Nat × List Bar)) :
    ∀ ds : List Nat, replayDates byDate ds = ds.flatMap (specDayBlock byDate) := by
  intro ds
  induction ds with
  | nil => rfl
  | cons d ds ih => simp [replayDates, specDayBlock, ih, List.flatMap_cons]

theorem sortedDates_perm (byDate : List (Nat × List Bar)) :
    (sortedDates byDate).Perm (byDate.map Prod.fst) :=
  (byDate.map Prod.fst).perm_insertionSort (· ≤ ·)

theorem sortedDates_sorted_lt (byDate : List (Nat × List Bar))
    (hnd : (byDate.map Prod.fst).Nodup) :
    (sortedDates byDate).Sorted (· < ·) := by
  apply List.Sorted.lt_of_le
  · exact List.sorted_insertionSort (· ≤ ·) (byDate.map Prod.fst)
  · exact (sortedDates_perm byDate).nodup_iff.mpr hnd

/-- C1:  The replay loop of `run_backtest` visits the bar dates in
strictly ascending order (the dates of the loaded bars, each exactly
once), and within each date `d` it performs, in this order: the engine
`on_bar` for every bar of `d`, then `process_fills_for_date d`, then
the strategy's `on_bar` hook for every bar of `d`, then
`end_of_day d`.  The `Nodup` hypothesis is the key uniqueness of a
Python dict. -/
theorem replay_order (byDate : List (Nat × List Bar))
    (hnd : (byDate.map Prod.fst).Nodup) :
    (sortedDates byDate).Sorted (· < ·)
      ∧ (sortedDates byDate).Perm (byDate.map Prod.fst)
      ∧ replayTrace byDate
          = (sortedDates byDate).flatMap (specDayBlock byDate) :=
  ⟨sortedDates_sorted_lt byDate hnd,
   sortedDates_perm byDate,
   replayDates_eq_flatMap byDate (sortedDates byDate)⟩

/-- Witness for C1 on a concrete two-day, two-symbol bar map. -/
theorem replay_order_witness :
    (sortedDates sampleByDate).Sorted (· < ·)
      ∧ (sortedDates sampleByDate).Perm (sampleByDate.map Prod.fst)
      ∧ replayTrace sampleByDate
          = (sortedDates sampleByDate).flatMap (specDayBlock sampleByDate) :=
  replay_order sampleByDate (by decide)

/-- C10:  On the row it targets, `mark_running` sets the status to
`RUNNING`, sets `started_at`, and clears the `error` column to `NULL`,
leaving every other column of the row unchanged; in particular a
requeued previously-FAILED run loses its prior error text (the new
`error` is `none` whatever it was before). -/
theorem mark_running_spec (now : Nat) (run_id : String) (runs : List RunRow)
    (i : Nat) (hi : i < runs.length)
    (hj : i < (mark_running now run_id runs).length)
    (hid : (runs.get ⟨i, hi⟩).id = run_id) :
    ((mark_running now run_id runs).get ⟨i, hj⟩).status = RunStatus.RUNNING
    ∧ ((mark_running now run_id runs).get ⟨i, hj⟩).started_at = some now
    ∧ ((mark_running now run_id runs).get ⟨i, hj⟩).error = none
    ∧ ((mark_running now run_id runs).get ⟨i, hj⟩).id = (runs.get ⟨i, hi⟩).id
    ∧ ((mark_running now run_id runs).get ⟨i, hj⟩).strategy_id = (runs.get ⟨i, hi⟩).strategy_id
    ∧ ((mark_running now run_id runs).get ⟨i, hj⟩).config_json = (runs.get ⟨i, hi⟩).config_json
    ∧ ((mark_running now run_id runs).get ⟨i, hj⟩).created_at = (runs.get ⟨i, hi⟩).created_at
    ∧ ((mark_running now run_id runs).get ⟨i, hj⟩).finished_at = (runs.get ⟨i, hi⟩).finished_at := by
  have hget : (mark_running now run_id runs).get ⟨i, hj⟩
      = markRunningRow now (runs.get ⟨i, hi⟩) := by
    simp only [List.get_eq_getElem] at hid ⊢
    simp [mark_running, List.getElem_map, hid]
  rw [hget]
  exact ⟨rfl, rfl, rfl, rfl, rfl, rfl, rfl, rfl⟩

/-- Witness for C10: reclaiming a requeued FAILED run erases the prior
error text and leaves `finished_at` and `created_at` untouched. -/
theorem mark_running_spec_witness :
    ((mark_running 5 "r1"
        [⟨"r1", some "s1", RunStatus.FAILED, "cfg", 0, some 1, some 2, some "boom"⟩]).get
      ⟨0, by decide⟩).status = RunStatus.RUNNING
    ∧ ((mark_running 5 "r1"
        [⟨"r1", some "s1", RunStatus.FAILED, "cfg", 0, some 1, some 2, some "boom"⟩]).get
      ⟨0, by decide⟩).error = none
    ∧ ((mark_running 5 "r1"
        [⟨"r1", some "s1", RunStatus.FAILED, "cfg", 0, some 1, some 2, some "boom"⟩]).get
      ⟨0, by decide⟩).finished_at = some 2 := by
  have h := mark_running_spec 5 "r1"
    [⟨"r1", some "s1", RunStatus.FAILED, "cfg", 0, some 1, some 2, some "boom"⟩]
    0 (by decide) (by decide) rfl
  exact ⟨h.1, h.2.2.1, h.2.2.2.2.2.2.2⟩

/-- C9 counterexample: A module body that executes fine and defines
a callable `on_bar` but binds `init` to a non-callable value makes
`compile_strategy` fail, although the claimed failure condition
("the body raises, or `on_bar` is not a callable") does not hold. -/
theorem compile_strategy_claim_counterexample :
    (compile_strategy (Except.ok ⟨some ⟨false⟩, some ⟨true⟩⟩)).isOk = false
    ∧ claimedFailCond (Except.ok ⟨some ⟨false⟩, some ⟨true⟩⟩) = false := by
  exact ⟨rfl, rfl⟩

/-- C9 amended: `compile_strategy` succeeds exactly when the module
body executes, `on_bar` is defined and callable, and `init` — if
defined — is callable too; on success it returns the optional `init`
hook together with the `on_bar` hook. -/
theorem compile_strategy_amended (body : Except String ModuleEnv) :
    (compile_strategy body).isOk = compileSucceeds body
    ∧ (∀ g ob, body = Except.ok g → g.on_bar = some ob → ob.callable = true →
        (∀ i, g.init = some i → i.callable = true) →
        compile_strategy body = Except.ok (g.init, ob)) := by
  constructor
  · match body with
    | .error e => rfl
    | .ok g =>
        match hob : g.on_bar with
        | none => simp [compile_strategy, compileSucceeds, hob, Except.isOk, Except.toBool]
        | some ob =>
            cases hc : ob.callable
            · simp [compile_strategy, compileSucceeds, hob, hc, Except.isOk, Except.toBool]
            · match hi : g.init with
              | none =>
                  simp [compile_strategy, compileSucceeds, hob, hc, hi,
                    Except.isOk, Except.toBool]
              | some i =>
                  cases hic : i.callable <;>
                    simp [compile_strategy, compileSucceeds, hob, hc, hi, hic,
                      Except.isOk, Except.toBool]
  · rintro g ob rfl hob hc hinit
    cases hgi : g.init with
    | none => simp [compile_strategy, hob, hc, hgi]
    | some i => simp [compile_strategy, hob, hc, hgi, hinit i hgi]

/-- Witness for the amended C9 at a module with callable `init` and
`on_bar`. -/
theorem compile_strategy_amended_witness :
    (compile_strategy (Except.ok ⟨some ⟨true⟩, some ⟨true⟩⟩)).isOk
        = compileSucceeds (Except.ok ⟨some ⟨true⟩, some ⟨true⟩⟩)
    ∧ compile_strategy (Except.ok ⟨some ⟨true⟩, some ⟨true⟩⟩)
        = Except.ok (some ⟨true⟩, ⟨true⟩) := by
  refine ⟨(compile_strategy_amended (Except.ok ⟨some ⟨true⟩, some ⟨true⟩⟩)).1, ?_⟩
  exact (compile_strategy_amended (Except.ok ⟨some ⟨true⟩, some ⟨true⟩⟩)).2
    ⟨some ⟨true⟩, some ⟨true⟩⟩ ⟨true⟩ rfl rfl rfl
    (fun i hi => by cases hi; rfl)

theorem truncate_err_length (s : String) : (truncate_err s).length ≤ 10000 := by
  have h : (truncate_err s).length = (s.data.take 10000).length := rfl
  rw [List.length_take] at h
  omega

theorem run_once_error_row (rid : String) (now : Nat) (e : String) (db : WorkerDB)
    (i : Nat) (hi : i < db.runs.length)
    (hj : i < ((run_once rid now (ExecOutcome.error e) db).2).runs.length)
    (hid : (db.runs.get ⟨i, hi⟩).id = rid) :
    ((run_once rid now (ExecOutcome.error e) db).2).runs.get ⟨i, hj⟩
      = markFailedRow now e (markRunningRow now (db.runs.get ⟨i, hi⟩)) := by
  simp only [List.get_eq_getElem] at hid ⊢
  simp [run_once, mark_failed, mark_running, List.getElem_map, hid, markRunningRow]

theorem worker_loop_length (now : Nat) (q : List (String × ExecOutcome))
    (db : WorkerDB) : ((worker_loop now q db).2).length = q.length := by
  induction q generalizing db with
  | nil => rfl
  | cons h t ih =>
      obtain ⟨rid, oc⟩ := h
      simp [worker_loop, ih]

/-- C5:  When any step of transaction 2 raises after a successful
claim, `run_once` rolls the transaction back (the derivative tables are
unchanged), transitions the run to FAILED with `finished_at` set and
the error truncated to at most 10000 characters, and returns `False`;
the worker loop still processes the remaining queue (the failed run
contributes `false` and every queued run gets exactly one outcome). -/
theorem run_once_failure_spec (rid : String) (now : Nat) (e : String)
    (db : WorkerDB) (i : Nat) (hi : i < db.runs.length)
    (hj : i < ((run_once rid now (ExecOutcome.error e) db).2).runs.length)
    (hid : (db.runs.get ⟨i, hi⟩).id = rid)
    (rest : List (String × ExecOutcome)) :
    (run_once rid now (ExecOutcome.error e) db).1 = false
    ∧ ((run_once rid now (ExecOutcome.error e) db).2).results = db.results
    ∧ (((run_once rid now (ExecOutcome.error e) db).2).runs.get ⟨i, hj⟩).status
        = RunStatus.FAILED
    ∧ (((run_once rid now (ExecOutcome.error e) db).2).runs.get ⟨i, hj⟩).finished_at
        = some now
    ∧ (((run_once rid now (ExecOutcome.error e) db).2).runs.get ⟨i, hj⟩).error
        = some (truncate_err e)
    ∧ (truncate_err e).length ≤ 10000
    ∧ worker_loop now ((rid, ExecOutcome.error e) :: rest) db
        = ((worker_loop now rest ((run_once rid now (ExecOutcome.error e) db).2)).1,
           false :: (worker_loop now rest ((run_once rid now (ExecOutcome.error e) db).2)).2)
    ∧ ((worker_loop now ((rid, ExecOutcome.error e) :: rest) db).2).length
        = rest.length + 1 := by
  have hrow := run_once_error_row rid now e db i hi hj hid
  refine ⟨rfl, rfl, ?_, ?_, ?_, truncate_err_length e, ?_, ?_⟩
  · rw [hrow]; rfl
  · rw [hrow]; rfl
  · rw [hrow]; rfl
  · rfl
  · simp [worker_loop_length]

/-- Witness for C5 on a one-row runs table and an empty results store. -/
theorem run_once_failure_spec_witness :
    (run_once "r1" 7 (ExecOutcome.error "boom")
        ⟨[⟨"r1", none, RunStatus.RUNNING, "cfg", 0, some 1, none, none⟩], ⟨[], [], []⟩⟩).1 = false
    ∧ ((run_once "r1" 7 (ExecOutcome.error "boom")
        ⟨[⟨"r1", none, RunStatus.RUNNING, "cfg", 0, some 1, none, none⟩], ⟨[], [], []⟩⟩).2).results
        = (⟨[], [], []⟩ : ResultsDB)
    ∧ (((run_once "r1" 7 (ExecOutcome.error "boom")
        ⟨[⟨"r1", none, RunStatus.RUNNING, "cfg", 0, some 1, none, none⟩], ⟨[], [], []⟩⟩).2).runs.get
        ⟨0, by simp [run_once, mark_failed, mark_running]⟩).status = RunStatus.FAILED
    ∧ (((run_once "r1" 7 (ExecOutcome.error "boom")
        ⟨[⟨"r1", none, RunStatus.RUNNING, "cfg", 0, some 1, none, none⟩], ⟨[], [], []⟩⟩).2).runs.get
        ⟨0, by simp [run_once, mark_failed, mark_running]⟩).finished_at = some 7
    ∧ (((run_once "r1" 7 (ExecOutcome.error "boom")
        ⟨[⟨"r1", none, RunStatus.RUNNING, "cfg", 0, some 1, none, none⟩], ⟨[], [], []⟩⟩).2).runs.get
        ⟨0, by simp [run_once, mark_failed, mark_running]⟩).error = some (truncate_err "boom")
    ∧ (truncate_err "boom").length ≤ 10000 := by
  have h := run_once_failure_spec "r1" 7 "boom"
    ⟨[⟨"r1", none, RunStatus.RUNNING, "cfg", 0, some 1, none, none⟩], ⟨[], [], []⟩⟩
    0 (by simp) (by simp [run_once, mark_failed, mark_running]) rfl []
  exact ⟨h.1, h.2.1, h.2.2.1, h.2.2.2.1, h.2.2.2.2.1, h.2.2.2.2.2.1⟩

/-- C8:  When the loader yields zero bars for the run's symbols and
date range (and the engine module imported and the symbols resolved to
a non-empty list), `run_backtest` fails with the `NoBarsFound` error
having performed only the import/resolve/load steps — in particular
neither the engine construction, nor the strategy compilation, nor the
replay happened — and the worker thereupon marks the run FAILED. -/
theorem no_bars_found_spec (engineOk : Bool) (tickers : List String)
    (byDate : List (Nat × List Bar)) (stratBody : Except String ModuleEnv)
    (rid : String) (now : Nat) (msg : String) (db : WorkerDB) (i : Nat)
    (hi : i < db.runs.length)
    (hj : i < ((run_once rid now (ExecOutcome.error msg) db).2).runs.length)
    (hid : (db.runs.get ⟨i, hi⟩).id = rid)
    (h1 : engineOk = true) (h2 : tickers ≠ []) (h3 : byDate = []) :
    run_backtest engineOk tickers byDate stratBody
      = ([WorkStep.importEngine, WorkStep.resolveSymbols, WorkStep.loadBars],
         Except.error (BacktestError.noBarsFound tickers))
    ∧ WorkStep.constructEngine ∉ (run_backtest engineOk tickers byDate stratBody).1
    ∧ WorkStep.compileStrategyStep ∉ (run_backtest engineOk tickers byDate stratBody).1
    ∧ WorkStep.replay ∉ (run_backtest engineOk tickers byDate stratBody).1
    ∧ (((run_once rid now (ExecOutcome.error msg) db).2).runs.get ⟨i, hj⟩).status
        = RunStatus.FAILED := by
  subst h1 h3
  have hrb : run_backtest true tickers [] stratBody
      = ([WorkStep.importEngine, WorkStep.resolveSymbols, WorkStep.loadBars],
         Except.error (BacktestError.noBarsFound tickers)) := by
    simp [run_backtest, h2]
  refine ⟨hrb, ?_, ?_, ?_, ?_⟩
  · rw [hrb]; simp
  · rw [hrb]; simp
  · rw [hrb]; simp
  · rw [run_once_error_row rid now msg db i hi hj hid]; rfl

/-- Witness for C8 with one ticker, an empty bar map, and a one-row
runs table. -/
theorem no_bars_found_spec_witness :
    run_backtest true ["RELIANCE"] [] (Except.ok ⟨none, some ⟨true⟩⟩)
      = ([WorkStep.importEngine, WorkStep.resolveSymbols, WorkStep.loadBars],
         Except.error (BacktestError.noBarsFound ["RELIANCE"]))
    ∧ WorkStep.constructEngine
        ∉ (run_backtest true ["RELIANCE"] [] (Except.ok ⟨none, some ⟨true⟩⟩)).1
    ∧ WorkStep.compileStrategyStep
        ∉ (run_backtest true ["RELIANCE"] [] (Except.ok ⟨none, some ⟨true⟩⟩)).1
    ∧ WorkStep.replay
        ∉ (run_backtest true ["RELIANCE"] [] (Except.ok ⟨none, some ⟨true⟩⟩)).1
    ∧ (((run_once "r1" 7 (ExecOutcome.error "NoBarsFound")
        ⟨[⟨"r1", none, RunStatus.RUNNING, "cfg", 0, some 1, none, none⟩], ⟨[], [], []⟩⟩).2).runs.get
        ⟨0, by simp [run_once, mark_failed, mark_running]⟩).status = RunStatus.FAILED := by
  exact no_bars_found_spec true ["RELIANCE"] [] (Except.ok ⟨none, some ⟨true⟩⟩)
    "r1" 7 "NoBarsFound"
    ⟨[⟨"r1", none, RunStatus.RUNNING, "cfg", 0, some 1, none, none⟩], ⟨[], [], []⟩⟩
    0 (by simp) (by simp [run_once, mark_failed, mark_running]) rfl
    rfl (by simp) rfl

theorem equityRows_all_rid (rid : String) (curve : List (Nat × Int)) :
    ∀ r ∈ equityRows rid curve, r.run_id = rid := by
  intro r hr
  rw [equityRows, List.mem_map] at hr
  obtain ⟨p, _, rfl⟩ := hr
  rfl

theorem fillRows_all_rid (rid : String) (symMap : List (String × String)) :
    ∀ (fills : List EngineFill), ∀ r ∈ fillRows rid symMap fills, r.run_id = rid := by
  intro fills
  induction fills with
  | nil => simp [fillRows]
  | cons f t ih =>
      intro r hr
      cases hl : symMap.lookup f.symbol with
      | none =>
          simp only [fillRows, hl] at hr
          exact ih r hr
      | some sid =>
          by_cases hs : sid = ""
          · simp only [fillRows, hl, if_pos hs] at hr
            exact ih r hr
          · simp only [fillRows, hl, if_neg hs, List.mem_cons] at hr
            rcases hr with rfl | hr
            · rfl
            · exact ih r hr

theorem filter_of_all_false {α : Type} (p : α → Bool) (l : List α)
    (h : ∀ a ∈ l, p a = false) : l.filter p = [] := by
  rw [List.filter_eq_nil_iff]
  intro a ha
  simp [h a ha]

/-- C4:  Persisting results is idempotent: `write_results` first
deletes every existing `run_equity`, `run_fills`, `run_metrics` row of
the run and then inserts, inserting exactly one `run_metrics` row, so
the run's derivative rows afterwards are exactly the inserted ones and
executing `write_results` twice with the same inputs leaves exactly the
same state as executing it once. -/
theorem write_results_idempotent (rid : String) (curve : List (Nat × Int))
    (fills : List EngineFill) (metrics : EngineMetrics)
    (symMap : List (String × String)) (db : ResultsDB) :
    write_results rid curve fills metrics symMap
        (write_results rid curve fills metrics symMap db)
      = write_results rid curve fills metrics symMap db
    ∧ (write_results rid curve fills metrics symMap db).run_metrics.countP
        (fun r => r.run_id = rid) = 1
    ∧ (write_results rid curve fills metrics symMap db).run_equity.filter
        (fun r => r.run_id = rid) = equityRows rid curve
    ∧ (write_results rid curve fills metrics symMap db).run_fills.filter
        (fun r => r.run_id = rid) = fillRows rid symMap fills
    ∧ (write_results rid curve fills metrics symMap db).run_metrics.filter
        (fun r => r.run_id = rid) = [metricsRow rid metrics curve] := by
  have he0 : (equityRows rid curve).filter (fun r => ¬ (r.run_id = rid)) = [] :=
    filter_of_all_false _ _ (fun a ha => by simp [equityRows_all_rid rid curve a ha])
  have hf0 : (fillRows rid symMap fills).filter (fun r => ¬ (r.run_id = rid)) = [] :=
    filter_of_all_false _ _ (fun a ha => by simp [fillRows_all_rid rid symMap fills a ha])
  have hm0 : ([metricsRow rid metrics curve] : List MetricsRow).filter
      (fun r => ¬ (r.run_id = rid)) = [] := by
    simp [metricsRow]
  have he1 : (equityRows rid curve).filter (fun r => r.run_id = rid)
      = equityRows rid curve := by
    rw [List.filter_eq_self]
    intro a ha
    simp [equityRows_all_rid rid curve a ha]
  have hf1 : (fillRows rid symMap fills).filter (fun r => r.run_id = rid)
      = fillRows rid symMap fills := by
    rw [List.filter_eq_self]
    intro a ha
    simp [fillRows_all_rid rid symMap fills a ha]
  have hdb : ∀ X : ResultsDB,
      (X.run_equity.filter (fun r => ¬ (r.run_id = rid))).filter
          (fun r => r.run_id = rid) = [] := by
    intro X
    apply filter_of_all_false
    intro a ha
    rw [List.mem_filter] at ha
    simpa using ha.2
  refine ⟨?_, ?_, ?_, ?_, ?_⟩
  · simp only [write_results, clear_previous_results, List.filter_append,
      List.filter_filter]
    obtain ⟨e, f, m⟩ := db
    simp only [ResultsDB.mk.injEq]
    refine ⟨?_, ?_, ?_⟩
    · rw [List.append_left_inj]
      have : ∀ r : EquityRow,
          (decide ¬ (r.run_id = rid) && decide ¬ (r.run_id = rid)) =
            decide ¬ (r.run_id = rid) := by intro r; rw [Bool.and_self]
      simp only [this, he0, List.append_nil]
    · rw [List.append_left_inj]
      have : ∀ r : FillRow,
          (decide ¬ (r.run_id = rid) && decide ¬ (r.run_id = rid)) =
            decide ¬ (r.run_id = rid) := by intro r; rw [Bool.and_self]
      simp only [this, hf0, List.append_nil]
    · rw [List.append_left_inj]
      have : ∀ r : MetricsRow,
          (decide ¬ (r.run_id = rid) && decide ¬ (r.run_id = rid)) =
            decide ¬ (r.run_id = rid) := by intro r; rw [Bool.and_self]
      simp only [this, hm0, List.append_nil]
  · simp only [write_results, clear_previous_results, List.countP_append]
    have h1 : (db.run_metrics.filter (fun r => ¬ (r.run_id = rid))).countP
        (fun r => r.run_id = rid) = 0 := by
      rw [List.countP_eq_zero]
      intro a ha
      rw [List.mem_filter] at ha
      simpa using ha.2
    have h2 : ([metricsRow rid metrics curve] : List MetricsRow).countP
        (fun r => r.run_id = rid) = 1 := by
      simp [metricsRow]
    omega
  · simp only [write_results, clear_previous_results, List.filter_append]
    rw [hdb db, he1, List.nil_append]
  · simp only [write_results, clear_previous_results, List.filter_append]
    have : (db.run_fills.filter (fun r => ¬ (r.run_id = rid))).filter
        (fun r => r.run_id = rid) = [] := by
      apply filter_of_all_false
      intro a ha
      rw [List.mem_filter] at ha
      simpa using ha.2
    rw [this, hf1, List.nil_append]
  · simp only [write_results, clear_previous_results, List.filter_append]
    have h1 : (db.run_metrics.filter (fun r => ¬ (r.run_id = rid))).filter
        (fun r => r.run_id = rid) = [] := by
      apply filter_of_all_false
      intro a ha
      rw [List.mem_filter] at ha
      simpa using ha.2
    have h2 : ([metricsRow rid metrics curve] : List MetricsRow).filter
        (fun r => r.run_id = rid) = [metricsRow rid metrics curve] := by
      simp [metricsRow]
    rw [h1, h2, List.nil_append]

theorem fillRows_fee_sum (rid : String) (symMap : List (String × String)) :
    ∀ fills : List EngineFill,
      (∀ f ∈ fills, ∃ sid, symMap.lookup f.symbol = some sid ∧ sid ≠ "") →
      ((fillRows rid symMap fills).map FillRow.fee_paise).sum
        = (fills.map EngineFill.fee).sum := by
  intro fills
  induction fills with
  | nil => intro _; rfl
  | cons f t ih =>
      intro h
      obtain ⟨sid, hl, hs⟩ := h f (List.mem_cons_self f t)
      simp [fillRows, hl, hs, ih (fun g hg => h g (List.mem_cons_of_mem f hg))]

/-- C3:  The sum of `fee_paise` over the `run_fills` rows that
`write_results` persists equals the `fees_paise` value of the single
`run_metrics` row it persists.  The hypotheses are the engine
invariants modelled from the spec (§4.3/§4.4): every engine fill is for
a symbol that had bars, so the loader registered its ticker with a
non-empty symbol id, and the engine's `fees_paise` accumulates exactly
the fees of its fills. -/
theorem fees_sum_spec (rid : String) (symMap : List (String × String))
    (curve : List (Nat × Int)) (fills : List EngineFill) (metrics : EngineMetrics)
    (hmap : ∀ f ∈ fills, ∃ sid, symMap.lookup f.symbol = some sid ∧ sid ≠ "")
    (hengine : metrics.fees_paise = (fills.map EngineFill.fee).sum) :
    ((fillRows rid symMap fills).map FillRow.fee_paise).sum
      = (metricsRow rid metrics curve).fees_paise :=
  calc ((fillRows rid symMap fills).map FillRow.fee_paise).sum
      = (fills.map EngineFill.fee).sum := fillRows_fee_sum rid symMap fills hmap
    _ = metrics.fees_paise := hengine.symm
    _ = (metricsRow rid metrics curve).fees_paise := rfl

/-- Witness for C3 on two concrete fills whose fees are 3 and 4 paise
and an engine metrics object reporting 7. -/
theorem fees_sum_spec_witness :
    ((fillRows "r1" [("INFY", "u1")]
        [⟨1, "INFY", "BUY", 2, 100, 3, 1⟩, ⟨2, "INFY", "SELL", 2, 110, 4, 2⟩]).map
        FillRow.fee_paise).sum
      = (metricsRow "r1" ⟨none, 0, none, 0, 0, 0, 7, 0, 0⟩ []).fees_paise := by
  apply fees_sum_spec
  · intro f hf
    simp only [List.mem_cons, List.not_mem_nil, or_false] at hf
    rcases hf with rfl | rfl
    · exact ⟨"u1", rfl, by decide⟩
    · exact ⟨"u1", rfl, by decide⟩
  · decide

theorem if_lt_max (a b : ℚ) : (if a < b then b else a) = max a b := by
  rcases le_or_lt b a with h | h
  · rw [if_neg (not_lt.mpr h), max_eq_left h]
  · rw [if_pos h, max_eq_right h.le]

theorem maxDrawdownLoop_eq (l : List ℚ) : ∀ peak m : ℚ, 0 ≤ m →
    maxDrawdownLoop peak m l = max m ((ddSeries peak l).foldr max 0) := by
  induction l with
  | nil =>
      intro peak m hm
      simp [maxDrawdownLoop, ddSeries, max_eq_left hm]
  | cons v rest ih =>
      intro peak m hm
      have hstep : maxDrawdownLoop peak m (v :: rest)
          = maxDrawdownLoop (max peak v)
              (max m (if 0 < max peak v then (max peak v - v) / max peak v else 0)) rest := by
        simp only [maxDrawdownLoop, if_lt_max]
      rw [hstep, ih (max peak v) _ (le_trans hm (le_max_left _ _)), max_assoc]
      simp [ddSeries]

theorem foldr_max_nonneg (l : List ℚ) : 0 ≤ l.foldr max 0 := by
  induction l with
  | nil => exact le_rfl
  | cons v t ih => exact le_trans ih (le_max_right v _)

/-- C7:  The Persister's fallback maximum drawdown percentage equals
100 × the maximum over the equity series of
`(running_peak − equity)/running_peak` (running peak = largest equity
seen so far, the ratio taken as 0 whenever the running peak is not
positive), and 0 for an empty curve. -/
theorem max_drawdown_source_eq_spec (e_curve : List (Nat × Int)) :
    compute_max_drawdown_pct e_curve = maxDrawdownPctSpec e_curve := by
  unfold compute_max_drawdown_pct maxDrawdownPctSpec
  cases h : e_curve.map (fun p => ((p.2 : ℚ))) with
  | nil => rfl
  | cons v vs =>
      show maxDrawdownLoop v 0 (v :: vs) * 100
        = 100 * (ddSeries v (v :: vs)).foldr max 0
      rw [maxDrawdownLoop_eq (v :: vs) v 0 le_rfl,
        max_eq_right (foldr_max_nonneg (ddSeries v (v :: vs))), mul_comm]

theorem length_eq_one_of_ne_nil_of_not_lt {α : Type} (l : List α)
    (h1 : l ≠ []) (h2 : ¬ 1 < l.length) : l.length = 1 := by
  have := List.length_pos.mpr h1
  omega

/-- C6:  The Persister's fallback Sharpe equals 0 when the equity
curve has fewer than 2 points; otherwise, over the daily returns
`rᵢ = equityᵢ/equityᵢ₋₁ − 1` (skipping a zero previous equity), it is 0
when there are no returns or the sample standard deviation is 0, and
`mean(r) / stdev_sample(r) × √252` otherwise.  (With exactly one
return the sample variance has denominator 0; both the code — which
then hard-sets `sd = 0` — and the spec reading land on 0.) -/
theorem sharpe_source_eq_spec (e_curve : List (Nat × Int)) :
    compute_sharpe_from_equity e_curve = sharpeSpec e_curve := by
  unfold compute_sharpe_from_equity sharpeSpec
  by_cases h2 : e_curve.length < 2
  · rw [if_pos h2, if_pos h2]
  · rw [if_neg h2, if_neg h2]
    by_cases hr : retsOf e_curve = []
    · rw [if_pos hr, if_pos (Or.inl hr)]
    · rw [if_neg hr]
      by_cases hlen : 1 < (retsOf e_curve).length
      · have hsd : sdOf (retsOf e_curve) = stdevSample (retsOf e_curve) := by
          rw [sdOf, if_pos hlen, stdevSample]
        rw [hsd]
        by_cases h0 : stdevSample (retsOf e_curve) = 0
        · rw [if_pos h0, if_pos (Or.inr h0)]
        · rw [if_neg h0, if_neg (not_or.mpr ⟨hr, h0⟩)]
      · have h1 : (retsOf e_curve).length = 1 :=
          length_eq_one_of_ne_nil_of_not_lt _ hr hlen
        have hvar : sampleVar (retsOf e_curve) = 0 := by
          rw [sampleVar, h1]
          norm_num
        have hsd : sdOf (retsOf e_curve) = 0 := by rw [sdOf, if_neg hlen]
        have hstd : stdevSample (retsOf e_curve) = 0 := by
          rw [stdevSample, hvar]
          simp
        rw [if_pos hsd, if_pos (Or.inr hstd)]

theorem sellConsume_nonpos (price qty : Int) (q : List (Int × Int)) (h : qty ≤ 0) :
    sellConsume price qty q = (0, q, qty) := by
  cases q with
  | nil => rfl
  | cons lot rest =>
      rcases lot with ⟨lq, lp⟩
      simp [sellConsume, if_pos h]

theorem sellConsume_spec (price : Int) :
    ∀ (q : List (Int × Int)) (qty : Int),
      (∀ l ∈ q, 0 < l.1) → 0 < qty → qty ≤ queueQty q →
      (sellConsume price qty q).2.2 = 0
      ∧ queueQty (sellConsume price qty q).2.1 = queueQty q - qty
      ∧ (∀ l ∈ (sellConsume price qty q).2.1, 0 < l.1) := by
  intro q
  induction q with
  | nil =>
      intro qty hq hpos hle
      exfalso
      have h0 : queueQty ([] : List (Int × Int)) = 0 := rfl
      omega
  | cons lot rest ih =>
      rcases lot with ⟨lq, lp⟩
      intro qty hq hpos hle
      have hlq : 0 < lq := hq (lq, lp) (List.mem_cons_self _ _)
      have hqsum : queueQty ((lq, lp) :: rest) = lq + queueQty rest := by
        simp [queueQty]
      have hrest : ∀ l ∈ rest, 0 < l.1 := fun l hl => hq l (List.mem_cons_of_mem _ hl)
      rcases le_or_lt lq qty with hcase | hcase
      · -- the head lot is fully consumed and popped
        have hmin : min qty lq = lq := min_eq_right hcase
        have hstep : sellConsume price qty ((lq, lp) :: rest)
            = ((price - lp) * lq + (sellConsume price (qty - lq) rest).1,
               (sellConsume price (qty - lq) rest).2.1,
               (sellConsume price (qty - lq) rest).2.2) := by
          simp only [sellConsume, if_neg (not_le.mpr hpos), hmin, sub_self,
            eq_self_iff_true, if_true]
        rcases eq_or_lt_of_le hcase with heq | hlt
        · rw [hstep, sellConsume_nonpos price (qty - lq) rest (by omega)]
          dsimp only
          refine ⟨by omega, ?_, hrest⟩
          rw [hqsum]
          omega
        · have hpos2 : 0 < qty - lq := by omega
          have hle2 : qty - lq ≤ queueQty rest := by
            rw [hqsum] at hle
            omega
          obtain ⟨h1, h2, h3⟩ := ih (qty - lq) hrest hpos2 hle2
          rw [hstep]
          dsimp only
          refine ⟨h1, ?_, h3⟩
          rw [h2, hqsum]
          ring
      · -- the head lot is only partially consumed; remaining hits 0
        have hmin : min qty lq = qty := min_eq_left hcase.le
        have hne : ¬ (lq - qty = 0) := by omega
        have hstep : sellConsume price qty ((lq, lp) :: rest)
            = ((price - lp) * qty, (lq - qty, lp) :: rest, qty - qty) := by
          simp only [sellConsume, if_neg (not_le.mpr hpos), hmin, if_neg hne]
        rw [hstep]
        dsimp only
        refine ⟨by omega, ?_, ?_⟩
        · have hq2 : queueQty ((lq - qty, lp) :: rest) = (lq - qty) + queueQty rest := by
            simp [queueQty]
          rw [hq2, hqsum]
          ring
        · intro l hl
          rcases List.mem_cons.mp hl with rfl | hl
          · simpa using by omega
          · exact hrest l hl

theorem foldl_applyFill_spec :
    ∀ (fills : List ApiFill) (acc : SymbolAcc),
      (List.foldl applyFill acc fills).trades_closed
          = acc.trades_closed + (sellTrades acc.buy_queue fills).length
      ∧ (List.foldl applyFill acc fills).wins
          = acc.wins + (sellTrades acc.buy_queue fills).countP (fun t => 0 < t.1) := by
  intro fills
  induction fills with
  | nil => intro acc; simp [sellTrades]
  | cons f t ih =>
      intro acc
      by_cases hb : f.side = "BUY"
      · have h1 := ih { acc with buy_queue := acc.buy_queue ++ [(f.qty, f.price)] }
        constructor
        · rw [List.foldl_cons]
          rw [show applyFill acc f
              = { acc with buy_queue := acc.buy_queue ++ [(f.qty, f.price)] } from by
            simp [applyFill, hb]]
          rw [h1.1, sellTrades, if_pos hb]
        · rw [List.foldl_cons]
          rw [show applyFill acc f
              = { acc with buy_queue := acc.buy_queue ++ [(f.qty, f.price)] } from by
            simp [applyFill, hb]]
          rw [h1.2, sellTrades, if_pos hb]
      · by_cases hs : f.side = "SELL"
        · have h1 := ih (applyFill acc f)
          have hq2 : (applyFill acc f).buy_queue
              = (sellConsume f.price f.qty acc.buy_queue).2.1 := by
            simp [applyFill, hb, hs]
          have htc : (applyFill acc f).trades_closed = acc.trades_closed + 1 := by
            simp [applyFill, hb, hs]
          have hwn : (applyFill acc f).wins = acc.wins
              + (if 0 < (sellConsume f.price f.qty acc.buy_queue).1 then 1 else 0) := by
            simp [applyFill, hb, hs]
          have hts : sellTrades acc.buy_queue (f :: t)
              = ((sellConsume f.price f.qty acc.buy_queue).1,
                  f.qty - (sellConsume f.price f.qty acc.buy_queue).2.2)
                :: sellTrades (sellConsume f.price f.qty acc.buy_queue).2.1 t := by
            rw [sellTrades, if_neg hb, if_pos hs]
          constructor
          · rw [List.foldl_cons, h1.1, htc, hq2, hts]
            simp only [List.length_cons]
            omega
          · rw [List.foldl_cons, h1.2, hwn, hq2, hts, List.countP_cons]
            by_cases hw : 0 < (sellConsume f.price f.qty acc.buy_queue).1
            · simp [hw]
              omega
            · simp [hw]
        · have hstep : applyFill acc f = acc := by simp [applyFill, hb, hs]
          have hts : sellTrades acc.buy_queue (f :: t)
              = sellTrades acc.buy_queue t := by
            rw [sellTrades, if_neg hb, if_neg hs]
          rw [List.foldl_cons, hstep, hts]
          exact ih acc

theorem sellTrades_length :
    ∀ (fills : List ApiFill) (q : List (Int × Int)),
      (sellTrades q fills).length = fills.countP (fun f => f.side = "SELL") := by
  intro fills
  induction fills with
  | nil => intro q; rfl
  | cons f t ih =>
      intro q
      by_cases hb : f.side = "BUY"
      · have hns : ¬ (f.side = "SELL") := by rw [hb]; decide
        rw [sellTrades, if_pos hb, List.countP_cons, ih]
        simp [hns]
      · by_cases hs : f.side = "SELL"
        · rw [sellTrades, if_neg hb, if_pos hs, List.countP_cons]
          simp [hs, ih]
        · rw [sellTrades, if_neg hb, if_neg hs, List.countP_cons, ih]
          simp [hs]

theorem sellTrades_taken_pos :
    ∀ (fills : List ApiFill) (q : List (Int × Int)),
      (∀ l ∈ q, 0 < l.1) → feasibleFrom q fills = true →
      ∀ t ∈ sellTrades q fills, 0 < t.2 := by
  intro fills
  induction fills with
  | nil =>
      intro q _ _ t ht
      simp [sellTrades] at ht
  | cons f rest ih =>
      intro q hq hf t ht
      by_cases hb : f.side = "BUY"
      · rw [feasibleFrom, if_pos hb, Bool.and_eq_true, decide_eq_true_eq] at hf
        rw [sellTrades, if_pos hb] at ht
        refine ih (q ++ [(f.qty, f.price)]) ?_ hf.2 t ht
        intro l hl
        rcases List.mem_append.mp hl with hl | hl
        · exact hq l hl
        · rcases List.mem_singleton.mp hl with rfl
          simpa using hf.1
      · by_cases hs : f.side = "SELL"
        · rw [feasibleFrom, if_neg hb, if_pos hs, Bool.and_eq_true, Bool.and_eq_true,
            decide_eq_true_eq, decide_eq_true_eq] at hf
          obtain ⟨⟨hqty, hle⟩, hf2⟩ := hf
          obtain ⟨hrem, _, hlots⟩ := sellConsume_spec f.price q f.qty hq hqty hle
          rw [sellTrades, if_neg hb, if_pos hs] at ht
          rcases List.mem_cons.mp ht with rfl | ht
          · simpa [hrem] using hqty
          · exact ih (sellConsume f.price f.qty q).2.1 hlots hf2 t ht
        · rw [feasibleFrom, if_neg hb, if_neg hs] at hf
          rw [sellTrades, if_neg hb, if_neg hs] at ht
          exact ih q hq hf t ht

/-- C2:  Replaying a run's persisted fills through the FIFO lot
queue of `get_run_symbol_metrics`: every SELL counts as exactly one
closed trade (so `trades_closed` is the number of SELL fills), and
under the engine's long-only invariant (`feasibleFrom [] fills`, spec
§4.3: a persisted SELL never exceeds the held position and all
quantities are positive) every such SELL consumes a positive quantity
from the lots — i.e. at least one lot; `wins` counts the SELLs whose
aggregate realized PnL is positive, and `win_rate = wins/trades_closed`
with 0 when `trades_closed = 0`. -/
theorem per_symbol_metrics_spec (fills : List ApiFill)
    (hf : feasibleFrom [] fills = true) :
    (symbolMetrics fills).trades_closed
        = fills.countP (fun f => f.side = "SELL")
    ∧ ((sellTrades [] fills).all fun t => decide (0 < t.2)) = true
    ∧ (symbolMetrics fills).wins
        = (sellTrades [] fills).countP (fun t => 0 < t.1)
    ∧ win_rate (symbolMetrics fills)
        = (if (symbolMetrics fills).trades_closed = 0 then 0
           else ((symbolMetrics fills).wins : ℚ) / (symbolMetrics fills).trades_closed) := by
  have hfold := foldl_applyFill_spec fills initAcc
  refine ⟨?_, ?_, ?_, ?_⟩
  · rw [symbolMetrics, hfold.1, sellTrades_length fills]
    simp [initAcc]
  · rw [List.all_eq_true]
    intro t ht
    have := sellTrades_taken_pos fills [] (by simp) hf t ht
    simpa using this
  · rw [symbolMetrics, hfold.2]
    simp [initAcc]
  · rw [win_rate]
    by_cases h : (symbolMetrics fills).trades_closed = 0
    · rw [if_pos h, if_neg (by omega)]
    · rw [if_neg h, if_pos (by omega)]

/-- Witness for C2: buy 10, sell 5 at a gain, sell 5 at a loss —
2 closed trades, 1 win, win rate 1/2. -/
theorem per_symbol_metrics_spec_witness :
    (symbolMetrics sampleFills).trades_closed
        = sampleFills.countP (fun f => f.side = "SELL")
    ∧ ((sellTrades [] sampleFills).all fun t => decide (0 < t.2)) = true
    ∧ (symbolMetrics sampleFills).wins
        = (sellTrades [] sampleFills).countP (fun t => 0 < t.1)
    ∧ win_rate (symbolMetrics sampleFills)
        = (if (symbolMetrics sampleFills).trades_closed = 0 then 0
           else ((symbolMetrics sampleFills).wins : ℚ)
             / (symbolMetrics sampleFills).trades_closed) :=
  per_symbol_metrics_spec sampleFills (by decide)

end BackTestQ
